import Mathlib

/-!
Verification of the `gcp-reports` ingestion engine (`src/cmd/common.go`,
`src/cmd/backup.go`, `src/cmd/apps.go`, `src/unnamed/part_000`) against its
natural-language specification.

The Go code is shallowly embedded: each embedded definition mirrors one Go
function or code fragment, with machine integers as `Int`/`Nat`, Go `error`
results as `Option`/`Except`, Go maps as association lists or functions, and
the outcome of library calls (remote API listings, RFC3339 time parsing)
passed in as explicit arguments.  Timestamps are modelled as `Int` (Go
`time.Time` compared with `After`, i.e. `>`; durations in nanoseconds).
-/

namespace GCPReports

/-! ## Label lookup and backup-bucket classification

`reportProject.IngestStorage` (common.go:445-464) classifies a bucket with
`gcpBucket.Labels[*backupKey] == "true"`.  Go map indexing yields the zero
value `""` for a missing key, which we mirror with `getD ""`.
`reportProject.IngestStorageInfo` (backup.go:128-144) instead skips a bucket
with `gcpBucket.Labels[backup] == "" { continue }`, i.e. it processes (and
freshness-checks) every bucket whose backup-label value is non-empty. -/

/-- Go map indexing `labels[key]` for a `map[string]string`: the stored value,
or the zero value `""` when the key is absent. -/
def lookupLabel (labels : List (String × String)) (key : String) : String :=
  ((labels.find? (fun p => p.1 == key)).map (fun p => p.2)).getD ""

/-- The `isBackup` computation of `reportProject.IngestStorage`
(common.go:449-452): true iff the backup-label value is exactly `"true"`. -/
def isBackupStorage (labels : List (String × String)) (key : String) : Bool :=
  lookupLabel labels key == "true"

/-- The bucket filter of `reportProject.IngestStorageInfo` (backup.go:132):
a bucket is processed as a backup bucket iff its backup-label value is
non-empty (`continue` when the value is `""`). -/
def infoTreatsAsBackup (labels : List (String × String)) (key : String) : Bool :=
  !(lookupLabel labels key == "")

/-! ## The backup-naming pattern

`objectDatastoreKindRegex = regexp.MustCompile("\\.([^.]+)\\.backup_info")`
(common.go:363) and `reportObject.DatastoreGleanMeta` (common.go:365-371).
The pattern is a literal dot, a nonempty run of non-dot characters (captured),
then the literal `.backup_info` — with no anchors.  Go's RE2 engine returns
the leftmost match; because the captured run cannot contain a dot, a match
starting at a given dot must capture exactly the run up to the next dot, so
the scan below is an exact model of `FindStringSubmatch` for this pattern. -/

/-- The characters of the literal tail `.backup_info` of the pattern. -/
def backupInfoChars : List Char := '.' :: "backup_info".data

/-- Attempt to match `\.([^.]+)\.backup_info` at the head of `s`, returning
the captured segment. -/
def matchAt (s : List Char) : Option (List Char) :=
  match s with
  | [] => none
  | c :: rest =>
    if c = '.' then
      let seg := rest.takeWhile (fun d => !(d = '.'))
      let rest2 := rest.dropWhile (fun d => !(d = '.'))
      if seg.length ≠ 0 ∧ rest2.take backupInfoChars.length = backupInfoChars then
        some seg
      else none
    else none

/-- Leftmost match of the pattern in `s`: try `matchAt` at every start
position, left to right, as Go's regexp engine does. -/
def findKindAux (s : List Char) : Option (List Char) :=
  match s with
  | [] => none
  | _ :: rest =>
    match matchAt s with
    | some seg => some seg
    | none => findKindAux rest

/-- `reportObject.DatastoreGleanMeta` (common.go:365-371): the `kind` field
after gleaning — the captured segment when the regex matches, otherwise the
zero value `""`. -/
def gleanKind (id : String) : String :=
  match findKindAux id.data with
  | some seg => String.mk seg
  | none => ""

/-! ## Objects, sorting, and the kind map

`reportObject` (common.go:357-361), `objectSlice.Less` (common.go:379-381:
`o[i].updateTime.After(o[j].updateTime)`, i.e. strict `>`),
`reportBucket.UpdateKindMap` (common.go:388-399) and
`reportBucket.IngestObjects` (common.go:410-433).

A raw object carries its identifier and the outcome of parsing its RFC3339
`Updated` string: `none` models a parse error, in which case the Go code logs
and leaves `updateTime` the zero `time.Time` (modelled as `0`, older than any
real timestamp, so it sorts last in descending order). -/

/-- Raw facts of a `storage.Object` as consumed by `IngestObjects`: the
identifier and the (modelled) outcome of `time.Parse(time.RFC3339, Updated)`. -/
structure GCPObject where
  id : String
  updated : Option Int
deriving DecidableEq

/-- `reportObject` (common.go:357-361) after `DatastoreGleanMeta`. -/
structure ReportObject where
  id : String
  updateTime : Int
  kind : String
deriving DecidableEq, Inhabited

/-- The sortedness relation established by `sort.Sort(objectSlice(...))`:
`Less i j ⇔ updateTime i > updateTime j`, so in the sorted result every
earlier element's time is ≥ every later element's time. -/
def objGE (a b : ReportObject) : Prop :=
  b.updateTime ≤ a.updateTime

instance : DecidableRel objGE := fun a b => Int.decLe b.updateTime a.updateTime

instance : IsTotal ReportObject objGE :=
  ⟨fun a b => le_total b.updateTime a.updateTime⟩

instance : IsTrans ReportObject objGE :=
  ⟨fun _ _ _ hab hbc => le_trans hbc hab⟩

/-- The loop body of `reportBucket.UpdateKindMap` (common.go:392-397): skip
an object with empty `kind`, otherwise append it to the map entry for its
kind.  The Go map is modelled as a function from kind to object list, empty
entries being `[]`. -/
def kindStep (m : String → List ReportObject) (o : ReportObject) :
    String → List ReportObject :=
  if o.kind = "" then m
  else fun k => if k = o.kind then m k ++ [o] else m k

/-- The map-building loop of `reportBucket.UpdateKindMap`
(common.go:391-398): fold `kindStep` over the (sorted) object list, starting
from the freshly made empty map. -/
def buildKindMap (objs : List ReportObject) : String → List ReportObject :=
  objs.foldl kindStep (fun _ => [])

/-- The object construction of `reportBucket.IngestObjects`
(common.go:417-424): `updateTime` is the parsed `Updated` time — the zero
`time.Time` (modelled `0`) on parse failure — and `kind` comes from
`DatastoreGleanMeta`. -/
def mkReportObject (g : GCPObject) : ReportObject :=
  { id := g.id, updateTime := g.updated.getD 0, kind := gleanKind g.id }

/-- The bucket's object list after `IngestObjects` has run
`UpdateKindMap`: all constructed objects, sorted in place descending by
update time (`sort.Sort(objectSlice(rb.objects))`, common.go:389-390). -/
def ingestedObjects (gobjs : List GCPObject) : List ReportObject :=
  List.insertionSort objGE (gobjs.map mkReportObject)

/-- `reportBucket.IngestObjects` followed by `UpdateKindMap`
(common.go:410-433, 388-399): returns the bucket's (sorted) raw object list
and the rebuilt kind map. -/
def ingestObjects (gobjs : List GCPObject) :
    List ReportObject × (String → List ReportObject) :=
  (ingestedObjects gobjs, buildKindMap (ingestedObjects gobjs))

/-! ## Version ingestion

`reportService.Ingest` (common.go:211-246).  The Go code reads the configured
`versionLimit`, clamps it to the number of available versions, slices off
`shortVersions := versions[len(versions)-versionLimit:]`, and then runs
`for i := len(shortVersions) - 1; i >= 0; i--` appending a version built from
`versions[i]` — note: indexing `versions`, not `shortVersions` — to
`svc.versions`.  No sort is ever applied to `svc.versions`
(`versionSlice.Less`, common.go:254-256, is never invoked). -/

/-- Raw facts of an `appengine.Version`: identifier and `CreateTime` string. -/
structure GCPVersion where
  id : String
  createTime : String
deriving DecidableEq, Inhabited

/-- The append loop of `reportService.Ingest` (common.go:222-239): for
`i = k-1, …, 0` append `versions[i]`, producing
`[versions[k-1], …, versions[0]]`. -/
def loopAppendVersions (versions : List GCPVersion) : Nat → List GCPVersion
  | 0 => []
  | i + 1 => versions.getD i default :: loopAppendVersions versions i

/-- The version-retention computation of `reportService.Ingest`
(common.go:216-239): clamp the limit, form `shortVersions`, and run the
append loop over `versions` indexed by `shortVersions`' index range.  The
result is the service's `versions` list in its final order. -/
def serviceIngestVersions (versionLimit : Nat) (versions : List GCPVersion) :
    List GCPVersion :=
  let vl := if versionLimit > versions.length then versions.length else versionLimit
  let shortVersions := versions.drop (versions.length - vl)
  loopAppendVersions versions shortVersions.length

/-- Modelled from the spec: the root-command flag registration binding the
`versionLimit` option is not among the files under `src/` (the only `init`
present, `src/unnamed/part_000:115-138`, registers `within`, `env-key`,
`component-key` and `backup-key`); the spec states `versionLimit` (integer,
default 3) — maximum versions retained per service. -/
def defaultVersionLimit : Nat := 3

/-! ## Backup-bucket staleness

`reportProject.IngestStorageInfo` (backup.go:137-143): parse the bucket's
`Updated` timestamp; if parsing fails or `time.Since(updateTime) >
withinDuration` the bucket is reported stale, otherwise fresh.  `time.Since t`
is `now - t`; durations are in nanoseconds. -/

/-- The staleness test of `IngestStorageInfo` (backup.go:137-143):
`utErr != nil || time.Since(updateTime) > withinDuration`.  `updated` is the
modelled outcome of `time.Parse(time.RFC3339, gcpBucket.Updated)`. -/
def staleCheck (now withinDuration : Int) (updated : Option Int) : Bool :=
  match updated with
  | none => true
  | some t => decide (now - t > withinDuration)

/-- The default freshness window: `time.ParseDuration("24h")` registered for
the `within` flag (src/unnamed/part_000:126-127), in nanoseconds. -/
def defaultWithin : Int := 24 * 60 * 60 * 1000000000

/-! ## Project / application ingestion

`reportProject.Ingest` (common.go:334-346) and `reportApplication.Ingest`
(common.go:155-174).  `TakerGCP.GetApplication` (common.go:323-332) forwards
any error of the remote `Apps.Get` call — a NotFound response from the
provider arrives as a non-nil `getErr` (a `googleapi` error carrying its
status), and `GetApplication` assigns `err = getErr` without inspecting it.
The taker is modelled by the outcomes of its two calls used on this path;
errors carry a `notFound` flag that the ingestion code never reads,
mirroring the opaque Go `error`. -/

/-- A Go `error` as produced by the API client: a message plus whether the
underlying response was a NotFound.  `reportProject.Ingest` never inspects
either field. -/
structure GErr where
  msg : String
  notFound : Bool
deriving DecidableEq

/-- Raw facts of an `appengine.Application`. -/
structure GCPApp where
  id : String
deriving DecidableEq

/-- Raw facts of an `appengine.Service`. -/
structure GCPService where
  id : String
deriving DecidableEq

/-- The taker calls used by `reportProject.Ingest`: the outcome of
`GetApplication` and, per application, of `ListServices`. -/
structure TakerModel where
  getApplication : Except GErr GCPApp
  listServices : GCPApp → Except GErr (List GCPService)

/-- The project's tree state built by `reportProject.Ingest`: `p.application`
(set as soon as `GetApplication` succeeds, before services are ingested)
holding the application's raw facts and its `services` list. -/
structure ProjectState where
  application : Option (GCPApp × List GCPService)
deriving DecidableEq

/-- `reportProject.Ingest` (common.go:334-346) composed with
`reportApplication.Ingest` (common.go:155-174): any `GetApplication` error is
returned as-is with `p.application` still nil; otherwise `p.application` is
set and `reportApplication.Ingest` lists services, returning its error if the
listing fails and otherwise materialising one `reportService` per listed
service (per-service `Ingest` errors are discarded by the goroutine,
common.go:164-167).  Result: final project state and returned error. -/
def projectIngest (t : TakerModel) : ProjectState × Option GErr :=
  match t.getApplication with
  | .error e => ({ application := none }, some e)
  | .ok a =>
    match t.listServices a with
    | .error e => ({ application := some (a, []) }, some e)
    | .ok svcs => ({ application := some (a, svcs) }, none)

/-! ## Storage ingestion

`reportProject.IngestStorage` (common.go:445-464): list the buckets; on
listing failure return that error; otherwise, for every bucket (in listing
order) compute `isBackup`, append the bucket to `p.backupBuckets`
unconditionally, and — only when `isBackup` — assign
`ingestErr = bucket.IngestObjects(taker)`, overwriting whatever `ingestErr`
held before (`IngestObjects` returns nil on success, so a later success
erases an earlier failure).  `IngestObjects` (common.go:410-433) fails only
when `ListObjects` fails. -/

/-- Raw facts of a `storage.Bucket` as used by `IngestStorage`. -/
structure GCPBucket where
  id : String
  labels : List (String × String)
deriving DecidableEq

/-- The error result of `reportBucket.IngestObjects` (common.go:410-433)
given the outcome of `ListObjects`: the listing error, or nil on success
(object parsing never fails the call). -/
def bucketObjectsErr (r : Except String (List GCPObject)) : Option String :=
  match r with
  | .error e => some e
  | .ok _ => none

/-- The loop body of `reportProject.IngestStorage` (common.go:448-459):
compute `isBackup`, append the bucket to `p.backupBuckets` unconditionally,
and — only when `isBackup` — overwrite `ingestErr` with this bucket's
`IngestObjects` outcome. -/
def storageStep (backupKey : String)
    (listObjects : GCPBucket → Except String (List GCPObject))
    (acc : List (GCPBucket × Bool) × Option String) (gb : GCPBucket) :
    List (GCPBucket × Bool) × Option String :=
  let isB := isBackupStorage gb.labels backupKey
  (acc.1 ++ [(gb, isB)],
   if isB then bucketObjectsErr (listObjects gb) else acc.2)

/-- `reportProject.IngestStorage` (common.go:445-464).  `listBucketsResult`
models `taker.ListBuckets(p)`, `listObjects` the per-bucket
`taker.ListObjects`.  Returns the final `p.backupBuckets` list (each bucket
paired with its `isBackup` flag) and the returned `ingestErr`. -/
def ingestStorage (backupKey : String)
    (listBucketsResult : Except String (List GCPBucket))
    (listObjects : GCPBucket → Except String (List GCPObject)) :
    List (GCPBucket × Bool) × Option String :=
  match listBucketsResult with
  | .error e => ([], some e)
  | .ok gbs => gbs.foldl (storageStep backupKey listObjects) ([], none)

/-! ## SQL-instance ingestion

`reportProject.IngestSQLInstances` (common.go:487-517): for each instance
with backups enabled, list its backup runs; a listing failure is printed and
skipped (`continue`) without failing the call; otherwise every run is
appended to `instance.backupRuns` and the display loop prints
`instance.backupRuns[0:maxRuns]` with `maxRuns = 3` clamped down to the run
count.  The call returns an error only when `ListSQLInstances` fails. -/

/-- Raw facts of a `sqladmin.BackupRun` (the fields the display uses). -/
structure GCPBackupRun where
  enqueuedTime : String
  startTime : String
  endTime : String
deriving DecidableEq, Inhabited

/-- Raw facts of a `sqladmin.DatabaseInstance` as used here. -/
structure GCPSQLInstance where
  name : String
  backupEnabled : Bool
deriving DecidableEq

/-- The display slice of `IngestSQLInstances` (common.go:506-510):
`maxRuns := 3; if maxRuns >= len(runs) { maxRuns = len(runs) };
runs[0:maxRuns]`. -/
def displayedBackupRuns (runs : List GCPBackupRun) : List GCPBackupRun :=
  let maxRuns := if 3 ≥ runs.length then runs.length else 3
  runs.take maxRuns

/-- Per-instance body of `IngestSQLInstances` (common.go:492-515): the pair
(retained `backupRuns` list, displayed slice).  A disabled instance ingests
no runs; a failed `ListBackupRuns` is skipped via `continue` (empty runs, no
error propagates). -/
def ingestSQLInstanceRuns (inst : GCPSQLInstance)
    (runsResult : Except String (List GCPBackupRun)) :
    List GCPBackupRun × List GCPBackupRun :=
  if inst.backupEnabled then
    match runsResult with
    | .error _ => ([], [])
    | .ok runs => (runs, displayedBackupRuns runs)
  else ([], [])

/-- The returned error of `IngestSQLInstances` (common.go:488-491, 516):
exactly the error of `ListSQLInstances`; nothing later in the loop can fail
the call. -/
def ingestSQLInstancesErr (listResult : Except String (List GCPSQLInstance)) :
    Option String :=
  match listResult with
  | .error e => some e
  | .ok _ => none

/-! ## The fan-out / join barrier

`reportApplication.Ingest` (common.go:155-174) launches one goroutine per
listed service; each goroutine runs the child's `Ingest` and then sends one
token on the unbuffered `doneChan`; the parent then executes `for range
services { <-doneChan }` — one receive per launched child — before
returning.  `reportService.Ingest` (common.go:221-245) has the same shape
over versions.  An execution of one fan-out level with `n` children is
modelled as a trace of events; the structural facts below are exactly what
the code guarantees of any such trace:

* every send is by one of the `n` launched goroutines (`sends` indices < n);
* each goroutine sends at most once (its body is `Ingest; send; return`);
* a goroutine's completion event precedes (hence is contained in any trace
  with) its send;
* the parent performed `n` receives before returning (the trace extends to
  the parent's return);
* an unbuffered channel delivers each received token from a distinct send,
  so receives never outnumber sends. -/

/-- Events of one fan-out level: child `i` finishes its `Ingest` call;
child `i` sends its completion token on `doneChan`; the parent receives one
token. -/
inductive GoEvent where
  | childDone (i : Nat)
  | chanSend (i : Nat)
  | chanRecv
deriving DecidableEq

/-- The senders appearing in a trace, in order. -/
def sends (tr : List GoEvent) : List Nat :=
  tr.filterMap (fun e =>
    match e with
    | .chanSend i => some i
    | _ => none)

/-- The number of parent receives in a trace. -/
def recvCount (tr : List GoEvent) : Nat :=
  tr.countP (fun e =>
    match e with
    | .chanRecv => true
    | _ => false)

/-- A trace of one fan-out level with `n` children that runs up to the
parent's return from its receive loop (see the section comment for how each
conjunct is read off common.go:155-174 and 221-245). -/
def FanOutTrace (n : Nat) (tr : List GoEvent) : Prop :=
  (∀ i ∈ sends tr, i < n)
    ∧ (sends tr).Nodup
    ∧ (∀ i ∈ sends tr, GoEvent.childDone i ∈ tr)
    ∧ recvCount tr = n
    ∧ recvCount tr ≤ (sends tr).length

instance (n : Nat) (tr : List GoEvent) : Decidable (FanOutTrace n tr) := by
  unfold FanOutTrace
  infer_instance

/-! ## Spec-side characterizations and concrete inputs -/

/-- Lexicographic order on character lists by code point. -/
def charListLt : List Char → List Char → Bool
  | [], [] => false
  | [], _ :: _ => true
  | _ :: _, [] => false
  | a :: as, b :: bs =>
    if a.toNat < b.toNat then true
    else if b.toNat < a.toNat then false
    else charListLt as bs

/-- Chronological comparison of two timestamps in the fixed-width RFC3339
UTC form (`YYYY-MM-DDThh:mm:ssZ`): for such strings lexicographic character
order coincides with the order of the parsed `time.Time` values, so this
states which of two concrete creation/start times is earlier. -/
def rfc3339Lt (s t : String) : Bool :=
  charListLt s.data t.data

/-- The claim's suffix condition on an object identifier: the literal
`.backup_info` is a suffix (at the end) of the identifier. -/
def endsWithBackupInfo (s : String) : Bool :=
  s.data.reverse.take backupInfoChars.length == backupInfoChars.reverse

/-- The claim's characterization of `IngestStorage`'s returned error: the
object-ingestion outcome of the last backup-labeled bucket in the listing
(`none` when no backup bucket is listed). -/
def lastBackupObjectsErr (backupKey : String)
    (listObjects : GCPBucket → Except String (List GCPObject))
    (gbs : List GCPBucket) : Option String :=
  match (gbs.filter (fun gb => isBackupStorage gb.labels backupKey)).getLast? with
  | none => none
  | some gb => bucketObjectsErr (listObjects gb)

/-- Concrete version facts: oldest creation time (RFC3339). -/
def verA : GCPVersion := ⟨"verA", "2021-01-01T00:00:00Z"⟩

/-- Concrete version facts: middle creation time. -/
def verB : GCPVersion := ⟨"verB", "2021-01-02T00:00:00Z"⟩

/-- Concrete version facts: most recent creation time. -/
def verC : GCPVersion := ⟨"verC", "2021-01-03T00:00:00Z"⟩

/-- A NotFound error as the API client would surface it for a project with
no App Engine application. -/
def notFoundErr : GErr := ⟨"appengine: application not found", true⟩

/-- A taker whose application lookup reports that no application exists. -/
def takerNotFound : TakerModel :=
  ⟨Except.error notFoundErr, fun _ => Except.ok []⟩

/-- Concrete backup run, oldest start time. -/
def runOne : GCPBackupRun :=
  ⟨"2021-01-01T00:00:00Z", "2021-01-01T00:10:00Z", "2021-01-01T01:00:00Z"⟩

/-- Concrete backup run, second-oldest start time. -/
def runTwo : GCPBackupRun :=
  ⟨"2021-01-02T00:00:00Z", "2021-01-02T00:10:00Z", "2021-01-02T01:00:00Z"⟩

/-- Concrete backup run, third-oldest start time. -/
def runThree : GCPBackupRun :=
  ⟨"2021-01-03T00:00:00Z", "2021-01-03T00:10:00Z", "2021-01-03T01:00:00Z"⟩

/-- Concrete backup run with the most recent start time. -/
def runFour : GCPBackupRun :=
  ⟨"2021-01-04T00:00:00Z", "2021-01-04T00:10:00Z", "2021-01-04T01:00:00Z"⟩

/-- A database instance with backups enabled. -/
def sqlInstEnabled : GCPSQLInstance := ⟨"db-main", true⟩

/-- A backup-labeled bucket whose object listing fails. -/
def bktFail : GCPBucket := ⟨"bkt-fail", [("backup", "true")]⟩

/-- A backup-labeled bucket whose object listing succeeds. -/
def bktOK : GCPBucket := ⟨"bkt-ok", [("backup", "true")]⟩

/-- An unlabeled (non-backup) bucket. -/
def bktPlain : GCPBucket := ⟨"bkt-plain", []⟩

/-- A per-bucket object-listing outcome: failure for `bkt-fail`, success
(empty listing) for every other bucket. -/
def loScenario : GCPBucket → Except String (List GCPObject) :=
  fun gb => if gb.id = "bkt-fail" then Except.error "objects: permission denied" else Except.ok []

/-- A raw object whose identifier carries kind `foo`, updated at time 1. -/
def gObjOne : GCPObject := ⟨"2021-01-01.foo.backup_info", some 1⟩

/-- A raw object whose identifier carries kind `foo`, updated at time 2. -/
def gObjTwo : GCPObject := ⟨"2021-01-02.foo.backup_info", some 2⟩

/-- The ingested form of `gObjTwo`. -/
def rObjTwo : ReportObject := ⟨"2021-01-02.foo.backup_info", 2, "foo"⟩

/-- A complete two-child fan-out trace: both children finish and send, the
parent receives twice and returns. -/
def traceTwo : List GoEvent :=
  [.childDone 0, .chanSend 0, .chanRecv, .childDone 1, .chanSend 1, .chanRecv]

end GCPReports

namespace GCPReports

theorem gleanKind_examples :
    gleanKind "2021-01-01.foo.backup_info" = "foo"
      ∧ gleanKind "2021-01-02.foo.backup_info" = "foo"
      ∧ gleanKind "a.foo.backup_infox" = "foo"
      ∧ gleanKind "foo" = "" := by
  decide

theorem loopAppendVersions_length (versions : List GCPVersion) :
    ∀ k, (loopAppendVersions versions k).length = k := by
  intro k
  induction k with
  | zero => rfl
  | succ i ih => simp [loopAppendVersions, ih]

/-- C1: the claim says `reportService.Ingest` retains the `L` most recent
versions by parsed creation timestamp, in descending creation-time order,
re-derived by sorting.  The code computes `shortVersions` from the tail of
the provider list but then indexes `versions[i]` over `shortVersions`' index
range and never sorts, so with `versionLimit = 2` and provider order
`[verA, verB, verC]` (oldest first by `CreateTime`) it retains `[verB, verA]`
— omitting `verC`, which is strictly more recent than the retained `verA`
and `verB`. -/
theorem c1_version_selection_bug :
    serviceIngestVersions 2 [verA, verB, verC] = [verB, verA]
      ∧ verC ∉ serviceIngestVersions 2 [verA, verB, verC]
      ∧ rfc3339Lt verA.createTime verC.createTime = true
      ∧ rfc3339Lt verB.createTime verC.createTime = true := by
  decide

/-- C3: under the default configuration (`versionLimit` defaults to 3, a
default modelled from the spec because its flag registration is not among
the source files), `reportService.Ingest` retains `min(N, 3)` versions —
in particular at most 3. -/
theorem c3_default_version_limit (versions : List GCPVersion) :
    (serviceIngestVersions defaultVersionLimit versions).length = min versions.length 3
      ∧ (serviceIngestVersions defaultVersionLimit versions).length ≤ 3 := by
  have h : (serviceIngestVersions defaultVersionLimit versions).length
      = min versions.length 3 := by
    unfold serviceIngestVersions defaultVersionLimit
    rw [loopAppendVersions_length]
    simp only [List.length_drop]
    split <;> omega
  exact ⟨h, by rw [h]; exact min_le_right _ _⟩

/-- C4: `IngestStorage` computes `isBackup` true iff the backup-label value
is exactly `"true"` — but `IngestStorageInfo`, which applies the freshness
logic, processes as a backup bucket any bucket with a non-empty backup-label
value: a bucket labeled `backup: "false"` is not `isBackup`, yet its
freshness is evaluated by `IngestStorageInfo`. -/
theorem c4_backup_label_divergence :
    isBackupStorage [("backup", "false")] "backup" = false
      ∧ infoTreatsAsBackup [("backup", "false")] "backup" = true
      ∧ isBackupStorage [("backup", "true")] "backup" = true
      ∧ infoTreatsAsBackup [] "backup" = false := by
  decide

/-- C7: a backup bucket is flagged stale iff its `Updated` timestamp is
unparseable or its age `now - t` exceeds the freshness window, and a bucket
updated 30 hours ago is stale under the default 24-hour window. -/
theorem c7_staleness_classification :
    (∀ now w u, staleCheck now w u = true
        ↔ (u = none ∨ ∃ t, u = some t ∧ now - t > w))
      ∧ staleCheck (30 * 60 * 60 * 1000000000) defaultWithin (some 0) = true := by
  constructor
  · intro now w u
    cases u with
    | none => simp [staleCheck]
    | some t => simp [staleCheck]
  · decide

theorem c7_staleness_witness : staleCheck 5 2 none = true :=
  (c7_staleness_classification.1 5 2 none).mpr (Or.inl rfl)

/-- C10: at a fan-out level with `n` children, in any execution trace in
which the parent has completed its receive loop (one receive per launched
child over the unbuffered completion channel), every child has signalled —
and therefore completed — its ingestion: the level is a join barrier. -/
theorem c10_join_barrier (n : Nat) (tr : List GoEvent) (h : FanOutTrace n tr) :
    ∀ i, i < n → GoEvent.childDone i ∈ tr := by
  obtain ⟨h1, h2, h3, h4, h5⟩ := h
  intro i hi
  have hlen : n ≤ (sends tr).length := by omega
  have hsub : (sends tr).toFinset ⊆ Finset.range n := by
    intro j hj
    exact Finset.mem_range.2 (h1 j (List.mem_toFinset.1 hj))
  have hcard : (Finset.range n).card ≤ (sends tr).toFinset.card := by
    rw [Finset.card_range, List.toFinset_card_of_nodup h2]
    exact hlen
  have heq : (sends tr).toFinset = Finset.range n :=
    Finset.eq_of_subset_of_card_le hsub hcard
  have hmem : i ∈ (sends tr).toFinset := heq ▸ Finset.mem_range.2 hi
  exact h3 i (List.mem_toFinset.1 hmem)

theorem c10_join_barrier_witness : GoEvent.childDone 1 ∈ traceTwo :=
  c10_join_barrier 2 traceTwo (by decide) 1 (by decide)

/-- C2 counterexample: when the application lookup reports NotFound (an
error the code never distinguishes from transport failure),
`reportProject.Ingest` returns that error — not success — and the project
tree carries no application node at all. -/
theorem c2_notfound_counterexample :
    (projectIngest takerNotFound).2 = some notFoundErr
      ∧ (projectIngest takerNotFound).2 ≠ none
      ∧ (projectIngest takerNotFound).1.application = none := by
  decide

/-- C2 amended: `reportProject.Ingest` succeeds iff the application lookup
and the subsequent service listing both succeed; any lookup error — NotFound
included, since the code never inspects the error — is returned as the
project's ingestion error, with no application node created. -/
theorem c2_error_propagation (t : TakerModel) :
    ((projectIngest t).2 = none
        ↔ ∃ a svcs, t.getApplication = .ok a ∧ t.listServices a = .ok svcs)
      ∧ (∀ e, t.getApplication = .error e
          → projectIngest t = ({ application := none }, some e)) := by
  constructor
  · unfold projectIngest
    cases h : t.getApplication with
    | error e => simp [h]
    | ok a =>
      cases h2 : t.listServices a with
      | error e => simp [h, h2]
      | ok svcs => simp [h, h2]
  · intro e he
    unfold projectIngest
    rw [he]

theorem c2_error_propagation_witness :
    projectIngest takerNotFound = ({ application := none }, some notFoundErr) :=
  (c2_error_propagation takerNotFound).2 notFoundErr rfl

theorem displayedBackupRuns_eq_take (runs : List GCPBackupRun) :
    displayedBackupRuns runs = runs.take 3 := by
  unfold displayedBackupRuns
  by_cases h : 3 ≥ runs.length
  · simp only [h, if_pos, List.take_length]
    exact (List.take_of_length_le h).symm
  · simp only [h, if_neg, ite_false]

/-- C8 amended: for an instance with backups enabled whose run listing
succeeds, `IngestSQLInstances` retains every listed run and displays the
first `min(3, N)` runs in the provider's listing order (these are the most
recent only if the provider lists newest first — the code never compares
timestamps); an instance with zero runs displays nothing; and the call's
returned error never depends on the runs. -/
theorem c8_retention_amended (inst : GCPSQLInstance) (runs : List GCPBackupRun)
    (h : inst.backupEnabled = true) :
    ingestSQLInstanceRuns inst (.ok runs) = (runs, runs.take 3)
      ∧ (displayedBackupRuns runs).length = min 3 runs.length
      ∧ (runs = [] → ingestSQLInstanceRuns inst (.ok runs) = ([], []))
      ∧ ingestSQLInstancesErr (.ok [inst]) = none := by
  refine ⟨?_, ?_, ?_, rfl⟩
  · unfold ingestSQLInstanceRuns
    rw [h]
    simp [displayedBackupRuns_eq_take]
  · rw [displayedBackupRuns_eq_take]
    exact List.length_take 3 runs
  · intro hr
    subst hr
    unfold ingestSQLInstanceRuns
    rw [h]
    simp [displayedBackupRuns_eq_take]

theorem c8_retention_amended_witness :
    ingestSQLInstanceRuns sqlInstEnabled (.ok [runOne, runTwo, runThree, runFour])
      = ([runOne, runTwo, runThree, runFour], [runOne, runTwo, runThree]) := by
  have h := (c8_retention_amended sqlInstEnabled [runOne, runTwo, runThree, runFour] rfl).1
  simpa using h

theorem storageFold_spec (bk : String)
    (lo : GCPBucket → Except String (List GCPObject)) (gbs : List GCPBucket) :
    gbs.foldl (storageStep bk lo) ([], none)
      = (gbs.map (fun gb => (gb, isBackupStorage gb.labels bk)),
         lastBackupObjectsErr bk lo gbs) := by
  induction gbs using List.reverseRecOn with
  | nil => rfl
  | append_singleton l x ih =>
    rw [List.foldl_append, ih]
    unfold storageStep lastBackupObjectsErr
    cases hx : isBackupStorage x.labels bk
    · simp [List.filter_append, hx]
    · simp [List.filter_append, hx, List.getLast?_append_cons]

/-- C9: when the bucket listing succeeds, `IngestStorage` appends every
listed bucket (backup-labeled or not) to the project's bucket list, and its
returned error is exactly the object-ingestion outcome of the last
backup-labeled bucket in the listing — an earlier backup bucket's
object-listing failure is overwritten, so in the concrete scenario (failing
backup bucket, then succeeding backup bucket, then plain bucket) the call
returns nil even though the first bucket's object listing failed. -/
theorem c9_last_backup_error (backupKey : String) (gbs : List GCPBucket)
    (lo : GCPBucket → Except String (List GCPObject)) :
    ((ingestStorage backupKey (.ok gbs) lo).1
        = gbs.map (fun gb => (gb, isBackupStorage gb.labels backupKey))
      ∧ (ingestStorage backupKey (.ok gbs) lo).2
        = lastBackupObjectsErr backupKey lo gbs)
      ∧ (ingestStorage "backup" (.ok [bktFail, bktOK, bktPlain]) loScenario).2 = none
      ∧ (ingestStorage "backup" (.ok [bktFail, bktOK, bktPlain]) loScenario).1.length = 3
      ∧ bucketObjectsErr (loScenario bktFail) = some "objects: permission denied" := by
  refine ⟨?_, by decide, by decide, by decide⟩
  have h : ingestStorage backupKey (.ok gbs) lo
      = (gbs.map (fun gb => (gb, isBackupStorage gb.labels backupKey)),
         lastBackupObjectsErr backupKey lo gbs) := storageFold_spec backupKey lo gbs
  rw [h]
  exact ⟨rfl, rfl⟩

theorem kindFold_spec (objs : List ReportObject) :
    ∀ (m : String → List ReportObject) (k : String),
      (objs.foldl kindStep m) k
        = m k ++ objs.filter (fun o => !(o.kind == "") && (o.kind == k)) := by
  induction objs with
  | nil =>
    intro m k
    simp
  | cons o rest ih =>
    intro m k
    rw [List.foldl_cons, ih]
    by_cases h1 : o.kind = ""
    · simp [kindStep, h1, List.filter_cons]
    · by_cases h2 : k = o.kind
      · simp [kindStep, h1, h2, List.filter_cons]
      · have h2' : o.kind ≠ k := fun he => h2 he.symm
        simp [kindStep, h1, h2, h2', List.filter_cons]

theorem buildKindMap_eq_filter (objs : List ReportObject) (k : String) :
    buildKindMap objs k
      = objs.filter (fun o => !(o.kind == "") && (o.kind == k)) := by
  unfold buildKindMap
  rw [kindFold_spec]
  simp

/-- C5: after object ingestion of a backup bucket, every entry of the kind
map holds only objects whose identifier matches the backup-naming pattern
(objects with empty derived kind are excluded from the map but present in
the raw object list, which retains every listed object), and every kind's
sequence is ordered by descending last-updated timestamp. -/
theorem c5_kind_map_invariants (gobjs : List GCPObject) (k : String) :
    List.Pairwise objGE ((ingestObjects gobjs).2 k)
      ∧ (∀ o ∈ (ingestObjects gobjs).2 k, findKindAux o.id.data ≠ none)
      ∧ (∀ o ∈ (ingestObjects gobjs).2 k, o ∈ (ingestObjects gobjs).1)
      ∧ (∀ o ∈ (ingestObjects gobjs).1, o.kind = "" → o ∉ (ingestObjects gobjs).2 k)
      ∧ (ingestObjects gobjs).1.length = gobjs.length := by
  have hmap : (ingestObjects gobjs).2 k
      = (ingestedObjects gobjs).filter (fun o => !(o.kind == "") && (o.kind == k)) :=
    buildKindMap_eq_filter _ _
  have hfst : (ingestObjects gobjs).1 = ingestedObjects gobjs := rfl
  have hsorted : List.Pairwise objGE (ingestedObjects gobjs) :=
    List.sorted_insertionSort objGE _
  refine ⟨?_, ?_, ?_, ?_, ?_⟩
  · rw [hmap]
    exact hsorted.sublist (List.filter_sublist _)
  · intro o ho
    rw [hmap] at ho
    have hpred := List.of_mem_filter ho
    simp only [Bool.and_eq_true, Bool.not_eq_true', beq_eq_false_iff_ne,
      beq_iff_eq] at hpred
    have hmem : o ∈ gobjs.map mkReportObject :=
      (List.mem_insertionSort objGE).mp (List.mem_of_mem_filter ho)
    obtain ⟨g, _, rfl⟩ := List.mem_map.mp hmem
    intro hnone
    apply hpred.1
    show gleanKind g.id = ""
    unfold gleanKind
    have hg : findKindAux g.id.data = none := hnone
    rw [hg]
  · intro o ho
    rw [hmap] at ho
    rw [hfst]
    exact List.mem_of_mem_filter ho
  · intro o ho he
    rw [hmap]
    intro hoin
    have hp := List.of_mem_filter hoin
    simp [he] at hp
  · rw [hfst]
    unfold ingestedObjects
    rw [List.length_insertionSort]
    exact List.length_map _ _

theorem c5_kind_map_invariants_witness : findKindAux rObjTwo.id.data ≠ none :=
  (c5_kind_map_invariants [gObjOne, gObjTwo] "foo").2.1 rObjTwo (by decide)

theorem takeWhile_seg (seg rest' : List Char) (hseg : ∀ c ∈ seg, c ≠ '.') :
    (seg ++ '.' :: rest').takeWhile (fun d => !(d = '.')) = seg := by
  induction seg with
  | nil => simp
  | cons c cs ih =>
    have hc : c ≠ '.' := hseg c (List.mem_cons_self c cs)
    simp only [List.cons_append, List.takeWhile_cons]
    simp [hc, ih (fun d hd => hseg d (List.mem_cons_of_mem c hd))]

theorem dropWhile_seg (seg rest' : List Char) (hseg : ∀ c ∈ seg, c ≠ '.') :
    (seg ++ '.' :: rest').dropWhile (fun d => !(d = '.')) = '.' :: rest' := by
  induction seg with
  | nil => simp
  | cons c cs ih =>
    have hc : c ≠ '.' := hseg c (List.mem_cons_self c cs)
    simp only [List.cons_append, List.dropWhile_cons]
    simp [hc, ih (fun d hd => hseg d (List.mem_cons_of_mem c hd))]

theorem matchAt_complete (seg b : List Char) (hne : seg ≠ [])
    (hseg : ∀ c ∈ seg, c ≠ '.') :
    matchAt ('.' :: (seg ++ (backupInfoChars ++ b))) = some seg := by
  have hbic : backupInfoChars ++ b = '.' :: ("backup_info".data ++ b) := rfl
  have htake : List.take backupInfoChars.length ('.' :: ("backup_info".data ++ b))
      = backupInfoChars := List.take_left backupInfoChars b
  have hlen : seg.length ≠ 0 := fun h => hne (List.length_eq_zero.mp h)
  simp only [matchAt, hbic]
  rw [takeWhile_seg _ _ hseg, dropWhile_seg _ _ hseg]
  simp [hlen]
  exact htake

theorem matchAt_sound (s seg : List Char) (h : matchAt s = some seg) :
    ∃ b, s = '.' :: (seg ++ (backupInfoChars ++ b))
      ∧ seg ≠ [] ∧ ∀ c ∈ seg, c ≠ '.' := by
  cases s with
  | nil => simp [matchAt] at h
  | cons c rest =>
    simp only [matchAt] at h
    by_cases hc : c = '.'
    · rw [if_pos hc] at h
      by_cases hcond : (rest.takeWhile (fun d => !(d = '.'))).length ≠ 0
          ∧ List.take backupInfoChars.length (rest.dropWhile (fun d => !(d = '.')))
            = backupInfoChars
      · rw [if_pos hcond] at h
        have hseg : rest.takeWhile (fun d => !(d = '.')) = seg :=
          Option.some_injective _ h
        subst hc
        refine ⟨List.drop backupInfoChars.length (rest.dropWhile (fun d => !(d = '.'))),
          ?_, ?_, ?_⟩
        · congr 1
          conv_lhs => rw [← List.takeWhile_append_dropWhile (fun d => !(d = '.')) rest]
          rw [hseg]
          congr 1
          conv_lhs => rw [← List.take_append_drop backupInfoChars.length
            (rest.dropWhile (fun d => !(d = '.')))]
          rw [hcond.2]
        · intro he
          apply hcond.1
          rw [hseg, he]
          rfl
        · intro d hd
          have hmemtw : d ∈ rest.takeWhile (fun d => !(d = '.')) := hseg ▸ hd
          have := List.mem_takeWhile_imp hmemtw
          simpa using this
      · rw [if_neg hcond] at h
        simp at h
    · rw [if_neg hc] at h
      simp at h

theorem findKindAux_sound (s : List Char) :
    ∀ seg, findKindAux s = some seg →
      ∃ a b, s = a ++ '.' :: (seg ++ (backupInfoChars ++ b))
        ∧ seg ≠ [] ∧ ∀ c ∈ seg, c ≠ '.' := by
  induction s with
  | nil =>
    intro seg h
    simp [findKindAux] at h
  | cons c rest ih =>
    intro seg h
    simp only [findKindAux] at h
    cases hm : matchAt (c :: rest) with
    | some s' =>
      rw [hm] at h
      have hs : s' = seg := Option.some_injective _ h
      subst hs
      obtain ⟨b, hb, hne, hdot⟩ := matchAt_sound _ _ hm
      exact ⟨[], b, by simpa using hb, hne, hdot⟩
    | none =>
      rw [hm] at h
      obtain ⟨a, b, hb, hne, hdot⟩ := ih seg h
      exact ⟨c :: a, b, by rw [List.cons_append, hb], hne, hdot⟩

theorem findKindAux_complete (a seg b : List Char) (hne : seg ≠ [])
    (hseg : ∀ c ∈ seg, c ≠ '.') :
    findKindAux (a ++ '.' :: (seg ++ (backupInfoChars ++ b))) ≠ none := by
  induction a with
  | nil =>
    rw [List.nil_append]
    simp only [findKindAux]
    rw [matchAt_complete seg b hne hseg]
    simp
  | cons c a' ih =>
    rw [List.cons_append]
    simp only [findKindAux]
    cases hm : matchAt (c :: (a' ++ '.' :: (seg ++ (backupInfoChars ++ b)))) with
    | some s' => simp
    | none => simpa using ih

theorem gleanKind_spec (id : String) :
    gleanKind id ≠ ""
      ↔ ∃ a seg b : List Char,
          id.data = a ++ '.' :: (seg ++ (backupInfoChars ++ b))
            ∧ seg ≠ [] ∧ ∀ c ∈ seg, c ≠ '.' := by
  constructor
  · intro h
    unfold gleanKind at h
    cases hf : findKindAux id.data with
    | none =>
      rw [hf] at h
      exact absurd rfl h
    | some seg =>
      obtain ⟨a, b, hb, hne, hdot⟩ := findKindAux_sound _ seg hf
      exact ⟨a, seg, b, hb, hne, hdot⟩
  · rintro ⟨a, seg, b, hb, hne, hdot⟩
    unfold gleanKind
    cases hf : findKindAux id.data with
    | none =>
      exfalso
      rw [hb] at hf
      exact findKindAux_complete a seg b hne hdot hf
    | some seg' =>
      obtain ⟨a', b', _, hne', _⟩ := findKindAux_sound _ seg' hf
      intro hS
      apply hne'
      have hdata : (String.mk seg').data = ("" : String).data := congrArg String.data hS
      simpa using hdata

/-- C6 counterexample: the identifier `a.foo.backup_infox` does not end in
`.backup_info`, yet `DatastoreGleanMeta` derives kind `foo` for it — the
regex `\.([^.]+)\.backup_info` is unanchored, so a non-suffix occurrence
matches, contradicting the claim that such identifiers yield no kind. -/
theorem c6_not_suffix_counterexample :
    gleanKind "a.foo.backup_infox" = "foo"
      ∧ endsWithBackupInfo "a.foo.backup_infox" = false
      ∧ gleanKind "a.foo.backup_infox" ≠ "" := by
  decide

/-- C6 amended: a kind is derived iff the identifier contains — anywhere,
not necessarily as a suffix — a dot, a nonempty dot-free segment, and the
literal `.backup_info`; the derived kind is the segment of the leftmost such
occurrence, so `2021-01-01.foo.backup_info` and `2021-01-02.foo.backup_info`
both yield kind `foo`. -/
theorem c6_kind_pattern_amended :
    (∀ id : String, gleanKind id ≠ ""
        ↔ ∃ a seg b : List Char,
            id.data = a ++ '.' :: (seg ++ (backupInfoChars ++ b))
              ∧ seg ≠ [] ∧ ∀ c ∈ seg, c ≠ '.')
      ∧ gleanKind "2021-01-01.foo.backup_info" = "foo"
      ∧ gleanKind "2021-01-02.foo.backup_info" = "foo" := by
  exact ⟨gleanKind_spec, by decide, by decide⟩

theorem c6_kind_pattern_amended_witness :
    ∃ a seg b : List Char,
      ("x.foo.backup_info" : String).data = a ++ '.' :: (seg ++ (backupInfoChars ++ b))
        ∧ seg ≠ [] ∧ ∀ c ∈ seg, c ≠ '.' :=
  (c6_kind_pattern_amended.1 "x.foo.backup_info").mp (by decide)

/-- C8 counterexample: with four listed backup runs in ascending start-time
order, the display slice is the first three of the provider listing; the run
with the most recent start time is omitted, so the displayed runs are not
the most recent ones. -/
theorem c8_first_three_counterexample :
    displayedBackupRuns [runOne, runTwo, runThree, runFour]
        = [runOne, runTwo, runThree]
      ∧ runFour ∉ displayedBackupRuns [runOne, runTwo, runThree, runFour]
      ∧ rfc3339Lt runOne.startTime runFour.startTime = true
      ∧ rfc3339Lt runTwo.startTime runFour.startTime = true
      ∧ rfc3339Lt runThree.startTime runFour.startTime = true := by
  decide

end GCPReports
